import Mathlib

/-!
Verification of the hstore binary codec and literal renderer.

Shallow embedding of the core of `diesel_pg_hstore` (`src/lib.rs`): the
binary decoder (`FromSql::from_sql` together with `HstoreIterator::consume`
and the `FallibleIterator::next` null-skipping loop), the binary encoder
(`ToSql::to_sql` with `write_pascal_string`), and the inline literal
renderer (`QueryFragment::walk_ast`).

Byte buffers are modelled as `List Nat` (each element a byte value).
Rust `&str` / `String` values on the wire side are modelled as their UTF-8
byte sequences (`List Nat`) together with the validity check performed by
`str::from_utf8` (which in Rust is a pure validation returning a view of
the same bytes).  The renderer operates on in-memory strings, modelled as
`List Char`.

A Rust panic (an abort, not a typed error) is modelled as a distinct
result constructor `panicked`, separate from the typed error constructors
that model the `Err(...)` strings actually present in the source.
-/

namespace DieselPgHstore

/-- Interpret a natural number (the big-endian recomposition of 4 bytes) as a
signed 32-bit value, the way `read_i32::<BigEndian>` does. -/
def toSigned32 (n : Nat) : Int :=
  if n < 2 ^ 31 then (n : Int) else (n : Int) - 2 ^ 32

/-- Model of `buf.read_i32::<BigEndian>()`: take 4 bytes from the front of the buffer
and return the signed 32-bit value plus the remaining buffer; with fewer than
4 bytes available, `read_exact` inside fails with an end-of-input I/O error,
modelled as `none`. -/
def readI32 : List Nat → Option (Int × List Nat)
  | b0 :: b1 :: b2 :: b3 :: rest =>
      some (toSigned32 (b0 * 2 ^ 24 + b1 * 2 ^ 16 + b2 * 2 ^ 8 + b3), rest)
  | _ => none

/-- The Rust `as i32` cast from `usize`: wrap modulo `2^32`, reinterpret as
signed. -/
def i32cast (n : Nat) : Int :=
  toSigned32 (n % 2 ^ 32)

/-- Model of `write_i32::<BigEndian>`: the 4 bytes of a signed 32-bit value, most
significant first. -/
def writeI32 (n : Int) : List Nat :=
  let u := (n % 2 ^ 32).toNat
  [u / 2 ^ 24 % 256, u / 2 ^ 16 % 256, u / 2 ^ 8 % 256, u % 256]

/-- The success condition of `str::from_utf8`: the byte sequence is valid
UTF-8 (standard table-driven validation; a "byte" outside `0..=255` matches
no case and is invalid). -/
def validUtf8 : List Nat → Bool
  | [] => true
  | b :: rest =>
      if b < 0x80 then validUtf8 rest
      else if 0xC2 ≤ b ∧ b ≤ 0xDF then
        match rest with
        | c1 :: rest1 =>
            if 0x80 ≤ c1 ∧ c1 ≤ 0xBF then validUtf8 rest1 else false
        | _ => false
      else if b = 0xE0 then
        match rest with
        | c1 :: c2 :: rest1 =>
            if (0xA0 ≤ c1 ∧ c1 ≤ 0xBF) ∧ (0x80 ≤ c2 ∧ c2 ≤ 0xBF) then validUtf8 rest1
            else false
        | _ => false
      else if (0xE1 ≤ b ∧ b ≤ 0xEC) ∨ b = 0xEE ∨ b = 0xEF then
        match rest with
        | c1 :: c2 :: rest1 =>
            if (0x80 ≤ c1 ∧ c1 ≤ 0xBF) ∧ (0x80 ≤ c2 ∧ c2 ≤ 0xBF) then validUtf8 rest1
            else false
        | _ => false
      else if b = 0xED then
        match rest with
        | c1 :: c2 :: rest1 =>
            if (0x80 ≤ c1 ∧ c1 ≤ 0x9F) ∧ (0x80 ≤ c2 ∧ c2 ≤ 0xBF) then validUtf8 rest1
            else false
        | _ => false
      else if b = 0xF0 then
        match rest with
        | c1 :: c2 :: c3 :: rest1 =>
            if (0x90 ≤ c1 ∧ c1 ≤ 0xBF) ∧ (0x80 ≤ c2 ∧ c2 ≤ 0xBF) ∧ (0x80 ≤ c3 ∧ c3 ≤ 0xBF) then
              validUtf8 rest1
            else false
        | _ => false
      else if 0xF1 ≤ b ∧ b ≤ 0xF3 then
        match rest with
        | c1 :: c2 :: c3 :: rest1 =>
            if (0x80 ≤ c1 ∧ c1 ≤ 0xBF) ∧ (0x80 ≤ c2 ∧ c2 ≤ 0xBF) ∧ (0x80 ≤ c3 ∧ c3 ≤ 0xBF) then
              validUtf8 rest1
            else false
        | _ => false
      else if b = 0xF4 then
        match rest with
        | c1 :: c2 :: c3 :: rest1 =>
            if (0x80 ≤ c1 ∧ c1 ≤ 0x8F) ∧ (0x80 ≤ c2 ∧ c2 ≤ 0xBF) ∧ (0x80 ≤ c3 ∧ c3 ≤ 0xBF) then
              validUtf8 rest1
            else false
        | _ => false
      else false

/-- The typed decode failures the source can actually return as `Err`:
the three literal error strings in `from_sql` / `consume`, the UTF-8
validation failure propagated from `str::from_utf8`, and the end-of-input
I/O error propagated from `read_i32` when fewer than 4 bytes remain. -/
inductive DecodeError
  | invalidEntryCount
  | invalidKeyLength
  | invalidBufferSize
  | invalidUtf8
  | readEof
  deriving DecidableEq

/-- Outcome of `HstoreIterator::consume` for one wire entry (the
`remaining > 0` branch): a key with an optional value and the unconsumed
tail, a typed error, or a panic (from `slice::split_at` when a length
prefix exceeds the bytes remaining). -/
inductive EntryResult
  | entry (key : List Nat) (value : Option (List Nat)) (rest : List Nat)
  | err (e : DecodeError)
  | panicked
  deriving DecidableEq

/-- Outcome of the whole decode: the in-memory map (association list with
unique keys), a typed error, or a panic. -/
inductive DecodeResult
  | ok (m : List (List Nat × List Nat))
  | err (e : DecodeError)
  | panicked
  deriving DecidableEq

/-- The body of `HstoreIterator::consume` past the `remaining == 0` test:
read the key length, reject a negative one, `split_at` the key bytes
(panicking when fewer remain than promised), validate UTF-8, read the value
length, treat a negative one as SQL null (no value bytes), otherwise
`split_at` and validate the value. -/
def consumeEntry (buf : List Nat) : EntryResult :=
  match readI32 buf with
  | none => .err .readEof
  | some (keyLen, buf1) =>
      if keyLen < 0 then .err .invalidKeyLength
      else if buf1.length < keyLen.toNat then .panicked
      else
        let key := buf1.take keyLen.toNat
        let buf2 := buf1.drop keyLen.toNat
        if validUtf8 key = false then .err .invalidUtf8
        else
          match readI32 buf2 with
          | none => .err .readEof
          | some (valLen, buf3) =>
              if valLen < 0 then .entry key none buf3
              else if buf3.length < valLen.toNat then .panicked
              else
                let value := buf3.take valLen.toNat
                if validUtf8 value = false then .err .invalidUtf8
                else .entry key (some value) (buf3.drop valLen.toNat)

/-- Model of `HashMap::insert`: overwrite the value when the key is present, append
the pair otherwise. -/
def insertKV : List (List Nat × List Nat) → List Nat → List Nat → List (List Nat × List Nat)
  | [], k, v => [(k, v)]
  | (k0, v0) :: rest, k, v =>
      if k0 = k then (k, v) :: rest else (k0, v0) :: insertKV rest k v

/-- Model of `HashMap::get` on the association-list model. -/
def lookupKV : List (List Nat × List Nat) → List Nat → Option (List Nat)
  | [], _ => none
  | (k0, v0) :: rest, k => if k0 = k then some v0 else lookupKV rest k

/-- The decode loop of `from_sql` driven by `FallibleIterator::next`:
while entries remain, consume one; a null-valued entry is skipped
(`consume` returned `(key, None)` and `next` continues), a present value is
inserted into the map.  When the declared count is exhausted, `consume`
demands an empty buffer (`invalid buffer size` otherwise) and the loop ends
with the accumulated map. -/
def decodeEntries : Nat → List Nat → List (List Nat × List Nat) → DecodeResult
  | 0, buf, map => if buf = [] then .ok map else .err .invalidBufferSize
  | remaining + 1, buf, map =>
      match consumeEntry buf with
      | .err e => .err e
      | .panicked => .panicked
      | .entry _ none rest => decodeEntries remaining rest map
      | .entry k (some v) rest => decodeEntries remaining rest (insertKV map k v)

/-- Model of `FromSql::from_sql`: read the 4-byte big-endian signed entry count,
reject a negative one with `Invalid entry count for hstore`, then run the
entry loop starting from an empty map. -/
def from_sql (bytes : List Nat) : DecodeResult :=
  match readI32 bytes with
  | none => .err .readEof
  | some (count, buf) =>
      if count < 0 then .err .invalidEntryCount
      else decodeEntries count.toNat buf []

/-- The length value `write_pascal_string` writes: `s.len() as i32`. -/
def pascalLen (s : List Nat) : Int :=
  i32cast s.length

/-- Model of `write_pascal_string`: append a 4-byte big-endian length prefix
(`s.len() as i32`) followed by the raw bytes of `s` to the buffer. -/
def write_pascal_string (s : List Nat) (buf : List Nat) : List Nat :=
  buf ++ writeI32 (pascalLen s) ++ s

/-- Model of `ToSql::to_sql`: start the buffer with 4 placeholder bytes, append each
entry as pascal-string key then pascal-string value while counting entries,
finally overwrite the first 4 bytes with the entry count `as i32`,
big-endian. -/
def to_sql (m : List (List Nat × List Nat)) : List Nat :=
  let buf := m.foldl (fun b kv => write_pascal_string kv.2 (write_pascal_string kv.1 b))
    [0, 0, 0, 0]
  writeI32 (i32cast m.length) ++ buf.drop 4

/-- Outcome of the literal renderer: the emitted SQL text, or a panic. -/
inductive RenderResult
  | ok (s : List Char)
  | panicked
  deriving DecidableEq

/-- Model of `format!("\x7b\x7d=>\x7b\x7d", k, v)`: the entry text `key=>value`,
with no quoting or escaping of either side. -/
def formatEntry (kv : List Char × List Char) : List Char :=
  kv.1 ++ "=>".toList ++ kv.2

/-- Model of `QueryFragment::walk_ast`: map every entry through `formatEntry`,
`reduce` the results with `acc + "," + e`, and `.unwrap()` the reduction —
which panics when the map is empty, since `reduce` of an empty iterator is
`None`.  On success push `'`, the joined entries, and `'::hstore`. -/
def walk_ast (m : List (List Char × List Char)) : RenderResult :=
  match m.map formatEntry with
  | [] => .panicked
  | e :: es =>
      .ok ("'".toList ++ es.foldl (fun acc x => acc ++ ",".toList ++ x) e ++ "'::hstore".toList)

/-- Modelled from the spec (refinement partner for the renderer): "join the
formatted entries with a single comma". -/
def joinComma : List (List Char) → List Char
  | [] => []
  | [e] => e
  | e :: es => e ++ ",".toList ++ joinComma es

/-- Modelled from the spec: "format every entry as `key=>value` …, join the
formatted entries with a single comma, wrap the joined text in single
quotes, and append the `::hstore` type-cast suffix". -/
def walkAstSpec (m : List (List Char × List Char)) : List Char :=
  "'".toList ++ joinComma (m.map formatEntry) ++ "'::hstore".toList

/-- The byte sequence the encoder loop appends for a list of entries, in
order: pascal-string key then pascal-string value for each. -/
def encBody : List (List Nat × List Nat) → List Nat
  | [] => []
  | kv :: rest => write_pascal_string kv.1 [] ++ (write_pascal_string kv.2 [] ++ encBody rest)

/-- Insert a list of pairs into the map in order, each through
`insertKV` (the decode loop's accumulated effect). -/
def insertAll (map : List (List Nat × List Nat)) (m : List (List Nat × List Nat)) :
    List (List Nat × List Nat) :=
  m.foldl (fun mp kv => insertKV mp kv.1 kv.2) map

/-- Comma-separated continuation of a join: a leading comma before every
element (the shape the renderer fold produces after its first element). -/
def sepCat : List (List Char) → List Char
  | [] => []
  | x :: xs => ",".toList ++ x ++ sepCat xs

/-- A wrap-free `as i32` cast: below `2^31` the cast is the identity. -/
lemma i32cast_eq (n : Nat) (h : n < 2 ^ 31) : i32cast n = (n : Int) := by
  simp only [i32cast, toSigned32]
  rw [Nat.mod_eq_of_lt (by omega), if_pos h]

/-- The length prefix of a short string is its exact length. -/
lemma pascalLen_eq (s : List Nat) (h : s.length < 2 ^ 31) : pascalLen s = (s.length : Int) :=
  i32cast_eq _ h

/-- Reading back 4 written bytes recovers an in-range signed 32-bit value
and leaves the tail untouched. -/
lemma readI32_writeI32 (n : Int) (rest : List Nat) (h1 : -2 ^ 31 ≤ n) (h2 : n < 2 ^ 31) :
    readI32 (writeI32 n ++ rest) = some (n, rest) := by
  simp only [writeI32, readI32, List.cons_append, List.nil_append, Option.some.injEq,
    Prod.mk.injEq, and_true]
  simp only [toSigned32]
  split_ifs <;> omega

/-- Reading a 4-byte integer from fewer than 4 bytes fails (the modelled
end-of-input I/O error). -/
lemma readI32_short (bytes : List Nat) (h : bytes.length < 4) : readI32 bytes = none := by
  match bytes with
  | [] => rfl
  | [_] => rfl
  | [_, _] => rfl
  | [_, _, _] => rfl
  | _ :: _ :: _ :: _ :: _ => simp only [List.length_cons] at h; omega

/-- One well-formed wire entry is consumed into its key/value pair, tail
preserved. -/
lemma consumeEntry_entry (k v rest : List Nat) (hk : validUtf8 k = true)
    (hkl : k.length < 2 ^ 31) (hv : validUtf8 v = true) (hvl : v.length < 2 ^ 31) :
    consumeEntry (write_pascal_string k [] ++ (write_pascal_string v [] ++ rest)) =
      .entry k (some v) rest := by
  simp only [write_pascal_string, List.nil_append, List.append_assoc, pascalLen_eq k hkl,
    pascalLen_eq v hvl, consumeEntry]
  rw [readI32_writeI32 _ _ (by omega) (by exact_mod_cast hkl)]
  simp only [Int.toNat_natCast, List.take_left, List.drop_left, List.length_append]
  rw [if_neg (by omega), if_neg (by omega)]
  simp only [hk, Bool.true_eq_false, if_false]
  rw [readI32_writeI32 _ _ (by omega) (by exact_mod_cast hvl)]
  simp only [Int.toNat_natCast, List.take_left, List.drop_left, List.length_append]
  rw [if_neg (by omega), if_neg (by omega)]
  simp only [hv, Bool.true_eq_false, if_false]

/-- A wire entry with a negative value length is consumed as a null entry:
the value-length field itself is the last consumed byte. -/
lemma consumeEntry_null (k : List Nat) (vl : Int) (rest : List Nat) (hk : validUtf8 k = true)
    (hkl : k.length < 2 ^ 31) (h1 : -2 ^ 31 ≤ vl) (h2 : vl < 0) :
    consumeEntry (write_pascal_string k [] ++ (writeI32 vl ++ rest)) = .entry k none rest := by
  simp only [write_pascal_string, List.nil_append, List.append_assoc, pascalLen_eq k hkl,
    consumeEntry]
  rw [readI32_writeI32 _ _ (by omega) (by exact_mod_cast hkl)]
  simp only [Int.toNat_natCast, List.take_left, List.drop_left, List.length_append]
  rw [if_neg (by omega), if_neg (by omega)]
  simp only [hk, Bool.true_eq_false, if_false]
  rw [readI32_writeI32 _ _ h1 (by omega)]
  simp [h2]

/-- With a complete key but fewer than 4 bytes left for the value length,
consuming an entry fails with the end-of-input error. -/
lemma consumeEntry_eof (k : List Nat) (rest : List Nat) (hk : validUtf8 k = true)
    (hkl : k.length < 2 ^ 31) (hr : rest.length < 4) :
    consumeEntry (write_pascal_string k [] ++ rest) = .err .readEof := by
  simp only [write_pascal_string, List.nil_append, List.append_assoc, pascalLen_eq k hkl,
    consumeEntry]
  rw [readI32_writeI32 _ _ (by omega) (by exact_mod_cast hkl)]
  simp only [Int.toNat_natCast, List.take_left, List.drop_left, List.length_append]
  rw [if_neg (by omega), if_neg (by omega)]
  simp only [hk, Bool.true_eq_false, if_false]
  rw [readI32_short rest hr]

/-- The encoder fold appends exactly the entry bytes after its initial
buffer. -/
lemma foldl_write (m : List (List Nat × List Nat)) (b : List Nat) :
    m.foldl (fun b kv => write_pascal_string kv.2 (write_pascal_string kv.1 b)) b =
      b ++ encBody m := by
  induction m generalizing b with
  | nil => simp [encBody]
  | cons kv t ih =>
      simp only [List.foldl_cons, ih, encBody]
      simp [write_pascal_string, List.append_assoc]

/-- The encoder output is the back-patched count followed by the entry
bytes. -/
lemma to_sql_eq (m : List (List Nat × List Nat)) :
    to_sql m = writeI32 (i32cast m.length) ++ encBody m := by
  simp only [to_sql, foldl_write]
  rfl

/-- Running the decode loop over the encoding of `m` (with well-formed
entries) inserts all of `m` and continues on the tail. -/
lemma decodeEntries_encBody (m : List (List Nat × List Nat)) (r : Nat) (rest : List Nat)
    (map : List (List Nat × List Nat))
    (hwf : ∀ kv ∈ m, validUtf8 kv.1 = true ∧ validUtf8 kv.2 = true ∧
      kv.1.length < 2 ^ 31 ∧ kv.2.length < 2 ^ 31) :
    decodeEntries (m.length + r) (encBody m ++ rest) map =
      decodeEntries r rest (insertAll map m) := by
  induction m generalizing map with
  | nil => simp [encBody, insertAll]
  | cons kv t ih =>
      obtain ⟨h1, h2, h3, h4⟩ := hwf kv (List.mem_cons_self _ _)
      simp only [encBody, List.length_cons, List.append_assoc]
      rw [show t.length + 1 + r = (t.length + r) + 1 by omega]
      simp only [decodeEntries]
      rw [consumeEntry_entry kv.1 kv.2 _ h1 h3 h2 h4]
      have ht : ∀ kv2 ∈ t, validUtf8 kv2.1 = true ∧ validUtf8 kv2.2 = true ∧
          kv2.1.length < 2 ^ 31 ∧ kv2.2.length < 2 ^ 31 :=
        fun kv2 h2m => hwf kv2 (List.mem_cons_of_mem _ h2m)
      show decodeEntries (t.length + r) (encBody t ++ rest) (insertKV map kv.1 kv.2) =
        decodeEntries r rest (insertAll map (kv :: t))
      rw [ih (insertKV map kv.1 kv.2) ht]
      simp [insertAll]

/-- Inserting a fresh key appends the pair at the end. -/
lemma insertKV_append (map : List (List Nat × List Nat)) (k v : List Nat)
    (h : ∀ kv ∈ map, kv.1 ≠ k) : insertKV map k v = map ++ [(k, v)] := by
  induction map with
  | nil => rfl
  | cons kv t ih =>
      obtain ⟨k0, v0⟩ := kv
      simp only [insertKV]
      rw [if_neg (h (k0, v0) (List.mem_cons_self _ _)), ih
        (fun kv2 h2 => h kv2 (List.mem_cons_of_mem _ h2))]
      simp

/-- Inserting a duplicate-free list whose keys avoid the accumulator is
plain concatenation. -/
lemma insertAll_eq_append (m : List (List Nat × List Nat)) (acc : List (List Nat × List Nat))
    (hnd : (m.map Prod.fst).Nodup)
    (hdisj : ∀ kv ∈ m, ∀ kv2 ∈ acc, kv2.1 ≠ kv.1) :
    insertAll acc m = acc ++ m := by
  induction m generalizing acc with
  | nil => simp [insertAll]
  | cons kv t ih =>
      simp only [List.map_cons, List.nodup_cons, List.mem_map] at hnd
      obtain ⟨hknotin, hndt⟩ := hnd
      simp only [insertAll, List.foldl_cons]
      rw [insertKV_append acc kv.1 kv.2
        (fun kv2 h2 => hdisj kv (List.mem_cons_self _ _) kv2 h2)]
      have hdisj2 : ∀ kv3 ∈ t, ∀ kv2 ∈ acc ++ [(kv.1, kv.2)], kv2.1 ≠ kv3.1 := by
        intro kv3 h3 kv2 h2
        rcases List.mem_append.mp h2 with hacc | hone
        · exact hdisj kv3 (List.mem_cons_of_mem _ h3) kv2 hacc
        · have : kv2 = (kv.1, kv.2) := List.mem_singleton.mp hone
          subst this
          intro heq
          exact hknotin ⟨kv3, h3, heq.symm⟩
      have hstep := ih (acc ++ [(kv.1, kv.2)]) hndt hdisj2
      simp only [insertAll] at hstep
      rw [hstep]
      simp

/-- The renderer fold is the initial element followed by comma-prefixed
elements. -/
lemma foldl_join (es : List (List Char)) (a : List Char) :
    es.foldl (fun acc x => acc ++ ",".toList ++ x) a = a ++ sepCat es := by
  induction es generalizing a with
  | nil => simp [sepCat]
  | cons x xs ih =>
      simp only [List.foldl_cons, ih, sepCat]
      simp [List.append_assoc]

/-- The comma join of a nonempty list is its head followed by
comma-prefixed elements. -/
lemma joinComma_eq (e : List Char) (es : List (List Char)) :
    joinComma (e :: es) = e ++ sepCat es := by
  induction es generalizing e with
  | nil => simp [joinComma, sepCat]
  | cons x xs ih =>
      simp only [joinComma]
      rw [ih x]
      simp [sepCat, List.append_assoc]

/-- Looking up a key right after inserting it yields the inserted value. -/
lemma lookup_insertKV (map : List (List Nat × List Nat)) (k v : List Nat) :
    lookupKV (insertKV map k v) k = some v := by
  induction map with
  | nil => simp [insertKV, lookupKV]
  | cons kv t ih =>
      obtain ⟨k0, v0⟩ := kv
      simp only [insertKV]
      by_cases h : k0 = k
      · simp [h, lookupKV]
      · simp [h, lookupKV, ih]

/-- A negative key-length prefix is rejected outright with the
invalid-key-length error, whatever follows it. -/
lemma consumeEntry_negKeyLen (kl : Int) (rest : List Nat) (h1 : -2 ^ 31 ≤ kl) (h2 : kl < 0) :
    consumeEntry (writeI32 kl ++ rest) = .err .invalidKeyLength := by
  simp only [consumeEntry]
  rw [readI32_writeI32 _ _ h1 (by omega)]
  simp [h2]

/-- The wrapped length prefix of a `2^31`-byte string is `-2^31`. -/
lemma pascalLen_replicate_wrap :
    pascalLen (List.replicate (2 ^ 31) (0 : Nat)) = -(2 ^ 31) := by
  simp only [pascalLen, List.length_replicate, i32cast, toSigned32]
  rw [Nat.mod_eq_of_lt (by norm_num), if_neg (by norm_num)]
  push_cast

/-- When the key-length cast has wrapped negative, decoding the encoder's
own output for a one-entry map fails with the invalid-key-length error. -/
lemma roundtrip_fails_of_wrap (k v : List Nat) (h1 : -2 ^ 31 ≤ pascalLen k)
    (h2 : pascalLen k < 0) :
    from_sql (to_sql [(k, v)]) = .err .invalidKeyLength := by
  rw [to_sql_eq]
  rw [show [(k, v)].length = 1 from rfl, i32cast_eq 1 (by norm_num)]
  simp only [from_sql, Nat.cast_one]
  rw [readI32_writeI32 1 _ (by norm_num) (by norm_num)]
  show (if (1 : Int) < 0 then DecodeResult.err .invalidEntryCount
    else decodeEntries (1 : Int).toNat (encBody [(k, v)]) []) = .err .invalidKeyLength
  rw [if_neg (by norm_num)]
  show decodeEntries 1 (encBody [(k, v)]) [] = .err .invalidKeyLength
  simp only [encBody, write_pascal_string, List.nil_append, List.append_assoc, decodeEntries]
  rw [consumeEntry_negKeyLen (pascalLen k) _ h1 h2]

/-- C1: the claim says that a key-length or value-length prefix promising
more bytes than remain makes decode fail with a typed truncation error.
The code instead panics: on the 8-byte buffer `00 00 00 01 00 00 00 05`
(count 1, key length 5, no key bytes) `slice::split_at` aborts, so decode
ends in a panic, not a typed failure. -/
theorem decode_truncated_key_panics :
    from_sql [0, 0, 0, 1, 0, 0, 0, 5] = .panicked := by decide

/-- C2 amended: decoding the encoder's output for any map `m` with
duplicate-free keys and valid-UTF-8 entries whose lengths and count fit a
signed 32-bit value succeeds and yields exactly `m`; the emission order is
universally quantified, so no order is observable beyond the set of pairs.
(The length bounds are forced by the counterexample below: the claim is
false for arbitrary entries, since a `2^31`-byte string wraps the encoder's
`as i32` length cast.) -/
theorem decode_encode_roundtrip (m : List (List Nat × List Nat))
    (hnd : (m.map Prod.fst).Nodup)
    (hwf : ∀ kv ∈ m, validUtf8 kv.1 = true ∧ validUtf8 kv.2 = true ∧
      kv.1.length < 2 ^ 31 ∧ kv.2.length < 2 ^ 31)
    (hcount : m.length < 2 ^ 31) :
    from_sql (to_sql m) = .ok m := by
  rw [to_sql_eq, i32cast_eq _ hcount]
  simp only [from_sql]
  rw [readI32_writeI32 _ _ (by omega) (by exact_mod_cast hcount)]
  simp only [Int.toNat_natCast]
  rw [if_neg (by omega)]
  have h0 := decodeEntries_encBody m 0 [] [] hwf
  simp only [Nat.add_zero, List.append_nil] at h0
  rw [h0, insertAll_eq_append m [] hnd (by simp)]
  simp [decodeEntries]

/-- C2 witness: the round-trip law at the one-entry map `{"a": "b"}`. -/
theorem decode_encode_roundtrip_witness :
    from_sql (to_sql [([97], [98])]) = .ok [([97], [98])] :=
  decode_encode_roundtrip [([97], [98])] (by decide) (by decide) (by decide)

/-- C2 counterexample: the round-trip law fails for arbitrary entries.
For the one-entry map whose key is `2^31` zero bytes, the encoder's
`s.len() as i32` cast wraps the key-length prefix to `-2^31`, and decoding
the encoder's own output fails with the invalid-key-length error instead
of returning the map. -/
theorem decode_encode_roundtrip_cex :
    from_sql (to_sql [(List.replicate (2 ^ 31) (0 : Nat), [])]) =
      .err .invalidKeyLength :=
  roundtrip_fails_of_wrap (List.replicate (2 ^ 31) (0 : Nat)) []
    (by rw [pascalLen_replicate_wrap])
    (by rw [pascalLen_replicate_wrap]; norm_num)

/-- C3: a wire entry with a negative value length consumes no value bytes
and inserts nothing — the decode loop continues right after the
value-length field with the map unchanged; and the buffer encoding
`{"a": null, "b": "c"}` decodes to exactly `{"b": "c"}`. -/
theorem null_entry_dropped :
    (∀ (vl : Int) (k rest : List Nat) (mp : List (List Nat × List Nat)) (r : Nat),
      -2 ^ 31 ≤ vl → vl < 0 → validUtf8 k = true → k.length < 2 ^ 31 →
      decodeEntries (r + 1) (write_pascal_string k [] ++ (writeI32 vl ++ rest)) mp =
        decodeEntries r rest mp) ∧
    from_sql [0, 0, 0, 2, 0, 0, 0, 1, 97, 255, 255, 255, 255, 0, 0, 0, 1, 98, 0, 0, 0, 1, 99] =
      .ok [([98], [99])] := by
  constructor
  · intro vl k rest mp r h1 h2 hk hkl
    simp only [decodeEntries]
    rw [consumeEntry_null k vl rest hk hkl h1 h2]
  · decide

/-- C3 witness: the null-drop step at a concrete entry (key `"a"`, value
length `-1`). -/
theorem null_entry_dropped_witness :
    decodeEntries 1 (write_pascal_string [97] [] ++ (writeI32 (-1) ++ [])) [] =
      decodeEntries 0 [] [] :=
  null_entry_dropped.1 (-1) [97] [] [] 0 (by decide) (by decide) (by decide) (by decide)

/-- C4: appending any nonempty stray suffix to a correctly encoded buffer
makes decode fail with the invalid-buffer-size error, and in particular a
buffer encoding one entry followed by one stray byte fails that way. -/
theorem trailing_bytes_rejected :
    (∀ (m : List (List Nat × List Nat)) (s : List Nat),
      (m.map Prod.fst).Nodup →
      (∀ kv ∈ m, validUtf8 kv.1 = true ∧ validUtf8 kv.2 = true ∧
        kv.1.length < 2 ^ 31 ∧ kv.2.length < 2 ^ 31) →
      m.length < 2 ^ 31 → s ≠ [] →
      from_sql (to_sql m ++ s) = .err .invalidBufferSize) ∧
    from_sql [0, 0, 0, 1, 0, 0, 0, 1, 97, 0, 0, 0, 1, 98, 0] = .err .invalidBufferSize := by
  constructor
  · intro m s hnd hwf hcount hs
    rw [to_sql_eq, i32cast_eq _ hcount, List.append_assoc]
    simp only [from_sql]
    rw [readI32_writeI32 _ _ (by omega) (by exact_mod_cast hcount)]
    simp only [Int.toNat_natCast]
    rw [if_neg (by omega)]
    have h0 := decodeEntries_encBody m 0 s [] hwf
    simp only [Nat.add_zero] at h0
    rw [h0]
    simp [decodeEntries, hs]
  · decide

/-- C4 witness: the one-entry map with a single stray byte. -/
theorem trailing_bytes_rejected_witness :
    from_sql (to_sql [([97], [98])] ++ [0]) = .err .invalidBufferSize :=
  trailing_bytes_rejected.1 [([97], [98])] [0] (by decide) (by decide) (by decide) (by decide)

/-- C5 counterexample: the spec's 7-byte buffer `00 00 00 FF FF FF FF` does
not decode with the invalid-entry-count error; its first 4 bytes give
count 255, so decode fails with the end-of-input read error while reading
the first key length. -/
theorem negative_count_example_cex :
    from_sql [0, 0, 0, 255, 255, 255, 255] = .err .readEof ∧
    from_sql [0, 0, 0, 255, 255, 255, 255] ≠ .err .invalidEntryCount := by decide

/-- C5 amended: whenever the leading 4-byte big-endian signed count is
negative, decode fails with the invalid-entry-count error; in particular
the 4-byte buffer `FF FF FF FF` (count `-1`) fails that way. -/
theorem negative_count_rejected :
    (∀ (bytes rest : List Nat) (c : Int),
      readI32 bytes = some (c, rest) → c < 0 →
      from_sql bytes = .err .invalidEntryCount) ∧
    from_sql [255, 255, 255, 255] = .err .invalidEntryCount := by
  constructor
  · intro bytes rest c h hc
    simp only [from_sql]
    rw [h]
    simp [hc]
  · decide

/-- C5 witness: the amended general law at the 4-byte buffer `FF FF FF FF`. -/
theorem negative_count_rejected_witness :
    from_sql [255, 255, 255, 255] = .err .invalidEntryCount :=
  negative_count_rejected.1 [255, 255, 255, 255] [] (-1) (by decide) (by decide)

/-- C6 counterexample: the claim quantifies over every map, but the
encoder computes each length prefix as `s.len() as i32`, which wraps: for
a key of `2^31` bytes the written key-length prefix is negative. -/
theorem encoder_prefix_nonneg_cex :
    pascalLen (List.replicate (2 ^ 31) (0 : Nat)) < 0 := by
  simp only [pascalLen, List.length_replicate, i32cast, toSigned32]
  rw [Nat.mod_eq_of_lt (by norm_num), if_neg (by norm_num)]
  push_cast

/-- C6 amended: for every map whose keys and values are each shorter than
`2^31` bytes (every realistically valid in-memory datum), the length
prefix the encoder writes for each key and value is non-negative; the
encoder itself is a total function with no data-dependent failure. -/
theorem encoder_prefix_nonneg (m : List (List Nat × List Nat))
    (hlen : ∀ kv ∈ m, kv.1.length < 2 ^ 31 ∧ kv.2.length < 2 ^ 31) :
    ∀ kv ∈ m, 0 ≤ pascalLen kv.1 ∧ 0 ≤ pascalLen kv.2 := by
  intro kv h
  obtain ⟨h1, h2⟩ := hlen kv h
  rw [pascalLen_eq _ h1, pascalLen_eq _ h2]
  constructor <;> omega

/-- C6 witness: the amended law at the one-entry map `{"a": "b"}`. -/
theorem encoder_prefix_nonneg_witness :
    0 ≤ pascalLen [97] ∧ 0 ≤ pascalLen [98] :=
  encoder_prefix_nonneg [([97], [98])] (by decide) ([97], [98]) (by decide)

/-- C7: a later wire entry with the same key overwrites the earlier one —
looking up a key after `insert` yields the new value, and the buffer with
entries `("x","1")` then `("x","2")` decodes to exactly `{"x": "2"}`. -/
theorem duplicate_key_last_wins :
    (∀ (mp : List (List Nat × List Nat)) (k v : List Nat),
      lookupKV (insertKV mp k v) k = some v) ∧
    from_sql [0, 0, 0, 2, 0, 0, 0, 1, 120, 0, 0, 0, 1, 49, 0, 0, 0, 1, 120, 0, 0, 0, 1, 50] =
      .ok [([120], [50])] :=
  ⟨lookup_insertKV, by decide⟩

/-- C8: the renderer formats each entry as `key=>value` with no escaping,
joins entries with single commas, wraps the result in single quotes and
appends `::hstore` (stated as agreement with the spec-worded renderer on
every nonempty map); in particular `{"a": "b"}` renders exactly as
`'a=>b'::hstore`. -/
theorem literal_rendering :
    (∀ m : List (List Char × List Char), m ≠ [] → walk_ast m = .ok (walkAstSpec m)) ∧
    walk_ast [("a".toList, "b".toList)] = .ok ("'a=>b'::hstore".toList) := by
  constructor
  · intro m hm
    match m with
    | [] => exact absurd rfl hm
    | kv :: t =>
        simp only [walk_ast, List.map_cons, walkAstSpec]
        rw [foldl_join, joinComma_eq]
  · decide

/-- C8 witness: the agreement law at the one-entry map `{"a": "b"}`. -/
theorem literal_rendering_witness :
    walk_ast [("a".toList, "b".toList)] = .ok (walkAstSpec [("a".toList, "b".toList)]) :=
  literal_rendering.1 [("a".toList, "b".toList)] (by decide)

/-- C9: rendering the empty map panics (the `reduce` of an empty iterator
is `None` and the code unwraps it): the renderer produces neither a
rendering nor a typed error. -/
theorem empty_map_render_panics :
    walk_ast [] = .panicked := rfl

/-- C10: whenever a 4-byte integer field (entry count, key length, or
value length) is needed and fewer than 4 bytes remain, the read fails and
decode surfaces a typed error (the propagated end-of-input I/O error), not
a panic; in particular the empty buffer fails with that error instead of
decoding to the empty map. -/
theorem short_length_field_typed_error :
    (∀ bytes : List Nat, bytes.length < 4 → readI32 bytes = none) ∧
    (∀ bytes : List Nat, bytes.length < 4 → from_sql bytes = .err .readEof) ∧
    (∀ buf : List Nat, buf.length < 4 → consumeEntry buf = .err .readEof) ∧
    (∀ k rest : List Nat, validUtf8 k = true → k.length < 2 ^ 31 → rest.length < 4 →
      consumeEntry (write_pascal_string k [] ++ rest) = .err .readEof) ∧
    from_sql [] = .err .readEof := by
  refine ⟨readI32_short, ?_, ?_, consumeEntry_eof, by decide⟩
  · intro bytes h
    simp only [from_sql]
    rw [readI32_short bytes h]
  · intro buf h
    simp only [consumeEntry]
    rw [readI32_short buf h]

/-- C10 witness: a complete key followed by a 1-byte tail fails the
value-length read with the typed end-of-input error. -/
theorem short_length_field_typed_error_witness :
    consumeEntry (write_pascal_string [97] [] ++ [0]) = .err .readEof :=
  short_length_field_typed_error.2.2.2.1 [97] [0] (by decide) (by decide) (by decide)

end DieselPgHstore
